import Mathlib

/-!
Shallow embedding of the strftime repository (Go): `format.go` (`StrftimeL`),
`parse.go` (`parseFixedInt`, `parseIntVariable`, `ParseL`) and `locale.go`
(`Locale`, `DefaultLocale`).  Go strings are modelled as `List Char`
(`format.go` iterates runes; `parse.go` indexes bytes — all inputs used here
are ASCII, where the two coincide).  Go `int` is modelled as `Int`, with Go's
truncated `/` and `%` rendered as `Int.tdiv` / `Int.tmod`.
-/

namespace Strftime

/-- Locale carries the date and time names required for locale settings
(locale.go, type `Locale`). -/
structure Locale where
  WeekdaysFull : List (List Char)
  WeekdaysAbbrev : List (List Char)
  MonthsFull : List (List Char)
  MonthsAbbrev : List (List Char)
  AM : List Char
  PM : List Char

/-- Default English locale (locale.go, `DefaultLocale`). -/
def DefaultLocale : Locale :=
  { WeekdaysFull := ["Sunday", "Monday", "Tuesday", "Wednesday", "Thursday",
      "Friday", "Saturday"].map String.toList
    WeekdaysAbbrev := ["Sun", "Mon", "Tue", "Wed", "Thu", "Fri", "Sat"].map String.toList
    MonthsFull := ["January", "February", "March", "April", "May", "June", "July",
      "August", "September", "October", "November", "December"].map String.toList
    MonthsAbbrev := ["Jan", "Feb", "Mar", "Apr", "May", "Jun", "Jul", "Aug", "Sep",
      "Oct", "Nov", "Dec"].map String.toList
    AM := "AM".toList
    PM := "PM".toList }

/-- The calendar value read by the formatter: the field-level interface of Go's
`time.Time` as used by `StrftimeL`.  `year`/`month`/`day`/`hour`/`minute`/`second`
are `t.Year()`, `int(t.Month())`, `t.Day()`, `t.Hour()`, `t.Minute()`,
`t.Second()`; `weekday` is `int(t.Weekday())` (0 = Sunday), `yday` is
`t.YearDay()`; `zoneName` and `zoneOffset` are the renderings
`t.Format("MST")` and `t.Format("-0700")`, which depend only on the location
attached to the value and are therefore carried as data. -/
structure Tm where
  year : Int
  month : Int
  day : Int
  hour : Int
  minute : Int
  second : Int
  weekday : Nat
  yday : Int
  zoneName : List Char
  zoneOffset : List Char

/-- Decimal digit characters of a natural number, most significant first
(the digit string produced by Go's `strconv.Itoa` / `fmt.Sprintf` verbs for
a non-negative value). -/
def natToDigits (n : Nat) : List Char :=
  if h : n < 10 then [Nat.digitChar n]
  else natToDigits (n / 10) ++ [Nat.digitChar (n % 10)]
termination_by n
decreasing_by
  exact Nat.div_lt_self (by omega) (by omega)

/-- Left-pad a digit string with zeros up to the given width
(the zero padding of Go's `fmt.Sprintf` `%0*d` verb). -/
def zeroPadTo (w : Nat) (ds : List Char) : List Char :=
  List.replicate (w - ds.length) '0' ++ ds

/-- Go's `fmt.Sprintf` with verb `%0wd`: minimum total width `w`, zero padded;
a negative value carries a leading minus sign inside the width. -/
def goSprintf0 (w : Nat) (v : Int) : List Char :=
  if v < 0 then '-' :: zeroPadTo (w - 1) (natToDigits (-v).toNat)
  else zeroPadTo w (natToDigits v.toNat)

/-- Go's `fmt.Sprintf` with verb `%wd`: minimum total width `w`, space padded
on the left. -/
def goSprintfSpace (w : Nat) (v : Int) : List Char :=
  let s := if v < 0 then '-' :: natToDigits (-v).toNat else natToDigits v.toNat
  List.replicate (w - s.length) ' ' ++ s

/-- Go's `strconv.Itoa`. -/
def goItoa (v : Int) : List Char :=
  if v < 0 then '-' :: natToDigits (-v).toNat else natToDigits v.toNat

/-- Go's English weekday abbreviations used by `time.Time.Format` layouts. -/
def goWeekdayAbbrev : List (List Char) :=
  ["Sun", "Mon", "Tue", "Wed", "Thu", "Fri", "Sat"].map String.toList

/-- Go's English month abbreviations used by `time.Time.Format` layouts. -/
def goMonthAbbrev : List (List Char) :=
  ["Jan", "Feb", "Mar", "Apr", "May", "Jun", "Jul", "Aug", "Sep", "Oct",
    "Nov", "Dec"].map String.toList

/-- Rendering of `t.Format("Mon Jan 2 15:04:05 2006")` (the `%c` case of
format.go) in terms of the calendar fields. -/
def goLayoutC (t : Tm) : List Char :=
  (goWeekdayAbbrev.getD t.weekday []) ++ [' '] ++
    (goMonthAbbrev.getD (t.month - 1).toNat []) ++ [' '] ++
    goItoa t.day ++ [' '] ++
    goSprintf0 2 t.hour ++ [':'] ++ goSprintf0 2 t.minute ++ [':'] ++
    goSprintf0 2 t.second ++ [' '] ++ goSprintf0 4 t.year

/-- Rendering of `t.Format("01/02/06")` (the `%D` case of format.go). -/
def goLayoutD (t : Tm) : List Char :=
  goSprintf0 2 t.month ++ ['/'] ++ goSprintf0 2 t.day ++ ['/'] ++
    goSprintf0 2 (t.year.tmod 100)

/-- Rendering of `t.Format("2006-01-02")` (the `%F` case of format.go). -/
def goLayoutF (t : Tm) : List Char :=
  goSprintf0 4 t.year ++ ['-'] ++ goSprintf0 2 t.month ++ ['-'] ++
    goSprintf0 2 t.day

/-- One conversion specifier of the formatter: the body of the `switch spec`
statement of `StrftimeL` (format.go lines 52–116).  Locale name lookups use
`getD` with an empty default; the Go code indexes the slices directly, which
is well-defined under the locale shape invariant (7 weekday and 12 month
names) together with `0 ≤ t.Weekday() ≤ 6`, the only situations exercised
here.  The `%B`/`%b`/`%h` cases carry Go's explicit bounds check. -/
def fmtSpec (spec : Char) (t : Tm) (loc : Locale) : List Char :=
  if spec = 'A' then loc.WeekdaysFull.getD t.weekday []
  else if spec = 'a' then loc.WeekdaysAbbrev.getD t.weekday []
  else if spec = 'B' then
    if 0 ≤ t.month - 1 ∧ t.month - 1 < (loc.MonthsFull.length : Int) then
      loc.MonthsFull.getD (t.month - 1).toNat []
    else []
  else if spec = 'b' ∨ spec = 'h' then
    if 0 ≤ t.month - 1 ∧ t.month - 1 < (loc.MonthsAbbrev.length : Int) then
      loc.MonthsAbbrev.getD (t.month - 1).toNat []
    else []
  else if spec = 'C' then goSprintf0 2 (t.year.tdiv 100)
  else if spec = 'c' then goLayoutC t
  else if spec = 'D' then goLayoutD t
  else if spec = 'd' then goSprintf0 2 t.day
  else if spec = 'e' then goSprintfSpace 2 t.day
  else if spec = 'H' then goSprintf0 2 t.hour
  else if spec = 'I' then
    goSprintf0 2 (if t.hour.tmod 12 = 0 then 12 else t.hour.tmod 12)
  else if spec = 'M' then goSprintf0 2 t.minute
  else if spec = 'S' then goSprintf0 2 t.second
  else if spec = 'p' then (if t.hour < 12 then loc.AM else loc.PM)
  else if spec = 'y' then goSprintf0 2 (t.year.tmod 100)
  else if spec = 'Y' then goSprintf0 4 t.year
  else if spec = 'm' then goSprintf0 2 t.month
  else if spec = 'j' then goSprintf0 3 t.yday
  else if spec = 'F' then goLayoutF t
  else if spec = 'Z' then t.zoneName
  else if spec = 'z' then t.zoneOffset
  else if spec = '%' then ['%']
  else ['%', spec]

/-- The formatter `StrftimeL` of format.go (the repository's rune-based
implementation, lines 18–123): walk the format, copy literals, decode one
specifier per `%`, skipping a POSIX `E`/`O` extension prefix and an optional
`%` right after it.  The three early-exit `break` branches of the Go loop
(lines 28–31, 37–41, 45–48) appear as the `[]` sub-cases. -/
def StrftimeL (format : List Char) (t : Tm) (loc : Locale) : List Char :=
  match format with
  | [] => []
  | '%' :: rest =>
    match rest with
    | [] => ['%']
    | c :: rest2 =>
      if c = 'E' ∨ c = 'O' then
        match rest2 with
        | [] => ['%', c]
        | '%' :: rest3 =>
          match rest3 with
          | [] => ['%']
          | spec :: rest4 => fmtSpec spec t loc ++ StrftimeL rest4 t loc
        | spec :: rest3 => fmtSpec spec t loc ++ StrftimeL rest3 t loc
      else fmtSpec c t loc ++ StrftimeL rest2 t loc
  | c :: rest => c :: StrftimeL rest t loc

/-- The wrapper `Strftime` of format.go: format with the default locale. -/
def Strftime (format : List Char) (t : Tm) : List Char :=
  StrftimeL format t DefaultLocale

/-! ## Parsing (parse.go) -/

/-- The distinct `fmt.Errorf` messages of parse.go, one constructor per call
site, carrying the data interpolated into the message. -/
inductive ParseError where
  | incompleteAtEnd
  | incompleteAfterPosix
  | fixedShortfall (length pos : Nat)
  | fixedBadInt (substr : List Char) (pos : Nat)
  | variableShortfall (minDigits pos : Nat)
  | variableBadInt (pos : Nat)
  | expectedAMPM (pos : Nat)
  | slashAfterMonth
  | slashAfterDay
  | dashAfterYear
  | dashAfterMonth
  | monthFullFail (pos : Nat)
  | monthAbbrevFail (pos : Nat)
  | weekdayFullFail (pos : Nat)
  | weekdayAbbrevFail (pos : Nat)
  | literalPercent (pos : Nat)
  | unsupportedSpecifier (spec : Char)
  | literalMismatch (pos : Nat) (expected got : Char)
  | trailingChars (pos : Nat)
  | missingAMPM
  | invalidHour12 (hour : Int)
deriving DecidableEq, Repr

/-- Result of a Go function that can return a value, return an error, or hit a
runtime panic (out-of-range string index). -/
inductive Outcome (α : Type) where
  | ok : α → Outcome α
  | err : ParseError → Outcome α
  | crash : Outcome α
deriving DecidableEq, Repr

/-- Sequencing for `Outcome`: errors and panics propagate. -/
def Outcome.bind {α β : Type} (o : Outcome α) (f : α → Outcome β) : Outcome β :=
  match o with
  | .ok a => f a
  | .err e => .err e
  | .crash => .crash

/-- Whether the outcome is a successful value. -/
def Outcome.isOk {α : Type} : Outcome α → Bool
  | .ok _ => true
  | _ => false

/-- Whether a character is a decimal digit (`c >= '0' && c <= '9'`). -/
def isDigitChar (c : Char) : Bool :=
  48 ≤ c.toNat && c.toNat ≤ 57

/-- Value of a digit string, most significant first. -/
def digitsVal (cs : List Char) : Nat :=
  cs.foldl (fun acc c => acc * 10 + (c.toNat - 48)) 0

/-- Whether every character of the list is a decimal digit. -/
def allDigits (cs : List Char) : Bool :=
  cs.all isDigitChar

/-- Digit-string part of Go's `strconv.Atoi`: a non-empty all-digit string.
Overflow never occurs on the at-most-4-character substrings passed here. -/
def digitsToNat (cs : List Char) : Option Nat :=
  if cs ≠ [] ∧ allDigits cs then some (digitsVal cs) else none

/-- Go's `strconv.Atoi`: an optional single leading `+` or `-` sign followed by
one or more decimal digits; anything else is an error (`none`). -/
def goAtoi (cs : List Char) : Option Int :=
  match cs with
  | [] => none
  | c :: ds =>
    if c = '+' then (digitsToNat ds).map Int.ofNat
    else if c = '-' then (digitsToNat ds).map (fun n => -(n : Int))
    else (digitsToNat cs).map Int.ofNat

/-- The helper `parseFixedInt` of parse.go: read exactly `length` characters
at the cursor and convert with `strconv.Atoi`.  The input is given as `rem`,
the suffix `s[pos:]` of the Go code; the returned `Nat` is the number of
characters consumed (`0` on error, mirroring Go's unchanged position), and
the returned value is `0` on error, exactly as the Go code returns. -/
def parseFixedInt (rem : List Char) (pos length : Nat) :
    Int × Nat × Option ParseError :=
  if rem.length < length then
    (0, 0, some (.fixedShortfall length pos))
  else
    match goAtoi (rem.take length) with
    | some v => (v, length, none)
    | none => (0, 0, some (.fixedBadInt (rem.take length) pos))

/-- Number of leading decimal-digit characters, capped at `maxD` (the scan
loop of `parseIntVariable` in parse.go). -/
def countDigitsUpTo (rem : List Char) (maxD : Nat) : Nat :=
  match maxD, rem with
  | 0, _ => 0
  | _, [] => 0
  | m + 1, c :: rest => if isDigitChar c then countDigitsUpTo rest m + 1 else 0

/-- The helper `parseIntVariable` of parse.go: read at least `minD` and at
most `maxD` digits at the cursor.  Same `rem`/consumed-count convention as
`parseFixedInt`. -/
def parseIntVariable (rem : List Char) (pos minD maxD : Nat) :
    Int × Nat × Option ParseError :=
  let cnt := countDigitsUpTo rem maxD
  if cnt < minD then (0, 0, some (.variableShortfall minD pos))
  else
    match goAtoi (rem.take cnt) with
    | some v => (v, cnt, none)
    | none => (0, 0, some (.variableBadInt pos))

/-- The accumulator `parseResult` of parse.go. -/
structure parseResult where
  year : Int
  month : Int
  day : Int
  hour : Int
  minute : Int
  second : Int
  hour12 : Bool
  ampmSet : Bool
  isPM : Bool
deriving DecidableEq, Repr

/-- The six arguments `ParseL` finally passes to `time.Date` (nanoseconds are
always 0 and the location is the current one).  For in-range fields —
which is all this development ever concludes with — `time.Date` returns a
value with exactly these fields. -/
structure DateArgs where
  year : Int
  month : Int
  day : Int
  hour : Int
  minute : Int
  second : Int
deriving DecidableEq, Repr

/-- Initial accumulator of `ParseL` (parse.go lines 64–76): every field copied
from `base`, the value of the `time.Now()` call executed inside `ParseL`,
here made an explicit parameter; all three flags start false. -/
def initResult (base : DateArgs) : parseResult :=
  { year := base.year, month := base.month, day := base.day, hour := base.hour
    minute := base.minute, second := base.second
    hour12 := false, ampmSet := false, isPM := false }

/-- Test whether `pre` occurs at the cursor: the Go condition
`len(s[j:]) >= len(pre) && s[j:j+len(pre)] == pre`. -/
def headMatches (pre rem : List Char) : Bool :=
  pre.length ≤ rem.length && rem.take pre.length == pre

/-- First name of the table occurring at the cursor, with its index and
length: the `for iMonth, mName := range …` loops of the `%B`/`%b` cases of
parse.go (first match in table order wins). -/
def lookupName (names : List (List Char)) (rem : List Char) (idx : Nat) :
    Option (Nat × Nat) :=
  match names with
  | [] => none
  | name :: rest =>
    if headMatches name rem then some (idx, name.length)
    else lookupName rest rem (idx + 1)

/-- Two-digit-year pivot of parse.go (`%y` and `%D`): value below 69 is
2000-based, otherwise 1900-based. -/
def pivotYear (v : Int) : Int :=
  if v < 69 then 2000 + v else 1900 + v

/-- One conversion specifier of the parser: the body of the `switch spec`
statement of `ParseL` (parse.go lines 100–230).  State is the accumulator
`r`, the remaining input `rem` (Go's `s[j:]`) and the absolute cursor `j`
(used in error payloads).  The numeric cases discard the error component of
`parseFixedInt` / `parseIntVariable` with `_`, exactly as the Go code does:
on a failed field the value is 0 and the cursor does not move. -/
def runSpec (loc : Locale) (spec : Char) (r : parseResult) (rem : List Char)
    (j : Nat) : Outcome (parseResult × List Char × Nat) :=
  if spec = 'Y' then
    let p := parseFixedInt rem j 4
    .ok ({ r with year := p.1 }, rem.drop p.2.1, j + p.2.1)
  else if spec = 'y' then
    let p := parseFixedInt rem j 2
    .ok ({ r with year := pivotYear p.1 }, rem.drop p.2.1, j + p.2.1)
  else if spec = 'm' then
    let p := parseFixedInt rem j 2
    .ok ({ r with month := p.1 }, rem.drop p.2.1, j + p.2.1)
  else if spec = 'd' then
    let p := parseFixedInt rem j 2
    .ok ({ r with day := p.1 }, rem.drop p.2.1, j + p.2.1)
  else if spec = 'e' then
    let skip : List Char × Nat :=
      match rem with
      | ' ' :: rest => (rest, j + 1)
      | _ => (rem, j)
    let p := parseIntVariable skip.1 skip.2 1 2
    .ok ({ r with day := p.1 }, skip.1.drop p.2.1, skip.2 + p.2.1)
  else if spec = 'H' then
    let p := parseFixedInt rem j 2
    .ok ({ r with hour := p.1 }, rem.drop p.2.1, j + p.2.1)
  else if spec = 'I' then
    let p := parseFixedInt rem j 2
    .ok ({ r with hour := p.1, hour12 := true }, rem.drop p.2.1, j + p.2.1)
  else if spec = 'M' then
    let p := parseFixedInt rem j 2
    .ok ({ r with minute := p.1 }, rem.drop p.2.1, j + p.2.1)
  else if spec = 'S' then
    let p := parseFixedInt rem j 2
    .ok ({ r with second := p.1 }, rem.drop p.2.1, j + p.2.1)
  else if spec = 'p' then
    if headMatches loc.AM rem then
      .ok ({ r with ampmSet := true, isPM := false },
        rem.drop loc.AM.length, j + loc.AM.length)
    else if headMatches loc.PM rem then
      .ok ({ r with ampmSet := true, isPM := true },
        rem.drop loc.PM.length, j + loc.PM.length)
    else .err (.expectedAMPM j)
  else if spec = 'D' then
    let p1 := parseFixedInt rem j 2
    let rem1 := rem.drop p1.2.1
    let j1 := j + p1.2.1
    match rem1 with
    | '/' :: rem2 =>
      let p2 := parseFixedInt rem2 (j1 + 1) 2
      let rem3 := rem2.drop p2.2.1
      let j3 := j1 + 1 + p2.2.1
      match rem3 with
      | '/' :: rem4 =>
        let p3 := parseFixedInt rem4 (j3 + 1) 2
        .ok ({ r with month := p1.1, day := p2.1, year := pivotYear p3.1 },
          rem4.drop p3.2.1, j3 + 1 + p3.2.1)
      | _ => .err .slashAfterDay
    | _ => .err .slashAfterMonth
  else if spec = 'F' then
    let p1 := parseFixedInt rem j 4
    let rem1 := rem.drop p1.2.1
    let j1 := j + p1.2.1
    match rem1 with
    | '-' :: rem2 =>
      let p2 := parseFixedInt rem2 (j1 + 1) 2
      let rem3 := rem2.drop p2.2.1
      let j3 := j1 + 1 + p2.2.1
      match rem3 with
      | '-' :: rem4 =>
        let p3 := parseFixedInt rem4 (j3 + 1) 2
        .ok ({ r with year := p1.1, month := p2.1, day := p3.1 },
          rem4.drop p3.2.1, j3 + 1 + p3.2.1)
      | _ => .err .dashAfterMonth
    | _ => .err .dashAfterYear
  else if spec = 'B' then
    match lookupName loc.MonthsFull rem 0 with
    | some p => .ok ({ r with month := (p.1 : Int) + 1 }, rem.drop p.2, j + p.2)
    | none => .err (.monthFullFail j)
  else if spec = 'b' ∨ spec = 'h' then
    match lookupName loc.MonthsAbbrev rem 0 with
    | some p => .ok ({ r with month := (p.1 : Int) + 1 }, rem.drop p.2, j + p.2)
    | none => .err (.monthAbbrevFail j)
  else if spec = 'A' then
    match lookupName loc.WeekdaysFull rem 0 with
    | some p => .ok (r, rem.drop p.2, j + p.2)
    | none => .err (.weekdayFullFail j)
  else if spec = 'a' then
    match lookupName loc.WeekdaysAbbrev rem 0 with
    | some p => .ok (r, rem.drop p.2, j + p.2)
    | none => .err (.weekdayAbbrevFail j)
  else if spec = '%' then
    match rem with
    | '%' :: rest => .ok (r, rest, j + 1)
    | _ => .err (.literalPercent j)
  else .err (.unsupportedSpecifier spec)

/-- The format-walking loop of `ParseL` (parse.go lines 80–239).  A literal
format character with exhausted input is a `crash`: the Go error path
evaluates `s[j]` inside the `fmt.Errorf` arguments even when `j >= len(s)`,
which panics with an index-out-of-range at runtime. -/
def parseLoop (loc : Locale) (format : List Char) (r : parseResult)
    (rem : List Char) (j : Nat) : Outcome (parseResult × List Char × Nat) :=
  match format with
  | [] => .ok (r, rem, j)
  | '%' :: rest =>
    match rest with
    | [] => .err .incompleteAtEnd
    | c :: rest2 =>
      if c = 'E' ∨ c = 'O' then
        match rest2 with
        | [] => .err .incompleteAfterPosix
        | '%' :: rest3 =>
          match rest3 with
          | [] => .err .incompleteAfterPosix
          | spec :: rest4 =>
            (runSpec loc spec r rem j).bind fun st =>
              parseLoop loc rest4 st.1 st.2.1 st.2.2
        | spec :: rest3 =>
          (runSpec loc spec r rem j).bind fun st =>
            parseLoop loc rest3 st.1 st.2.1 st.2.2
      else
        (runSpec loc c r rem j).bind fun st =>
          parseLoop loc rest2 st.1 st.2.1 st.2.2
  | c :: rest =>
    match rem with
    | [] => .crash
    | x :: rem2 =>
      if x = c then parseLoop loc rest r rem2 (j + 1)
      else .err (.literalMismatch j c x)

/-- Trailing-whitespace skip of parse.go (lines 242–244): advance over spaces
and tabs, tracking the absolute cursor. -/
def skipTrailingWs (rem : List Char) (j : Nat) : List Char × Nat :=
  match rem with
  | c :: rest =>
    if c = ' ' ∨ c = '\t' then skipTrailingWs rest (j + 1) else (c :: rest, j)
  | [] => ([], j)

/-- End-of-parse phase of `ParseL` (parse.go lines 241–267): trailing
whitespace tolerance, the 12-hour/AM-PM reconciliation, and the final
`time.Date` argument assembly. -/
def finalize (r : parseResult) (rem : List Char) (j : Nat) : Outcome DateArgs :=
  if (skipTrailingWs rem j).1 ≠ [] then .err (.trailingChars (skipTrailingWs rem j).2)
  else if r.hour12 && !r.ampmSet then .err .missingAMPM
  else if r.hour12 then
    if r.hour < 1 ∨ 12 < r.hour then .err (.invalidHour12 r.hour)
    else if r.isPM && r.hour ≠ 12 then
      .ok ⟨r.year, r.month, r.day, r.hour + 12, r.minute, r.second⟩
    else if !r.isPM && r.hour = 12 then
      .ok ⟨r.year, r.month, r.day, 0, r.minute, r.second⟩
    else .ok ⟨r.year, r.month, r.day, r.hour, r.minute, r.second⟩
  else .ok ⟨r.year, r.month, r.day, r.hour, r.minute, r.second⟩

/-- The parser `ParseL` of parse.go.  `base` is the value of the `time.Now()`
call the Go function performs on entry (its fields seed the accumulator);
the Go nil-locale default is outside this model, which always receives a
locale value. -/
def ParseL (format s : List Char) (loc : Locale) (base : DateArgs) :
    Outcome DateArgs :=
  (parseLoop loc format (initResult base) s 0).bind fun st =>
    finalize st.1 st.2.1 st.2.2

/-! ## Concrete fixtures and derived format predicates -/

/-- The round-trip format `%Y-%m-%d %H:%M:%S`. -/
def fmtC1 : List Char :=
  ['%', 'Y', '-', '%', 'm', '-', '%', 'd', ' ', '%', 'H', ':', '%', 'M',
    ':', '%', 'S']

/-- The format `%I:%M:%S %p`. -/
def fmtIMSp : List Char :=
  ['%', 'I', ':', '%', 'M', ':', '%', 'S', ' ', '%', 'p']

/-- Whether the format string decomposes into complete directives, i.e. the
directive walk shared by `StrftimeL` and `ParseL` never runs off the end of
the string in the middle of a `%`-escape. -/
def completeFormat (format : List Char) : Bool :=
  match format with
  | [] => true
  | '%' :: rest =>
    match rest with
    | [] => false
    | c :: rest2 =>
      if c = 'E' ∨ c = 'O' then
        match rest2 with
        | [] => false
        | '%' :: rest3 =>
          match rest3 with
          | [] => false
          | _ :: rest4 => completeFormat rest4
        | _ :: rest3 => completeFormat rest3
      else completeFormat rest2
  | _ :: rest => completeFormat rest

/-- A fixed calendar value: 2025-02-25 15:30:45, a Tuesday (weekday 2), day
56 of the year, in UTC. -/
def t0 : Tm :=
  ⟨2025, 2, 25, 15, 30, 45, 2, 56, "UTC".toList, "+0000".toList⟩

/-- A fixed current-moment value seeding the parse accumulator. -/
def b0 : DateArgs := ⟨2025, 2, 25, 15, 30, 45⟩

/-- A second current-moment value differing from `b0` only in the year. -/
def b1 : DateArgs := ⟨2024, 2, 25, 15, 30, 45⟩

/-- The accumulator state after parsing `03AM` against `%I%p` from `b0`. -/
def r0c : parseResult :=
  ⟨2025, 2, 25, 3, 30, 45, true, true, false⟩

/-! ## Digit-string arithmetic -/

lemma digitChar_toNat (d : Nat) (h : d < 10) : (Nat.digitChar d).toNat = 48 + d := by
  interval_cases d <;> rfl

lemma isDigitChar_digitChar (d : Nat) (h : d < 10) :
    isDigitChar (Nat.digitChar d) = true := by
  interval_cases d <;> rfl

lemma natToDigits_ne_nil (n : Nat) : natToDigits n ≠ [] := by
  rw [natToDigits]
  split
  · simp
  · simp

lemma digitsVal_append_last (xs : List Char) (c : Char) :
    digitsVal (xs ++ [c]) = digitsVal xs * 10 + (c.toNat - 48) := by
  simp [digitsVal, List.foldl_append]

lemma digitsVal_natToDigits (n : Nat) : digitsVal (natToDigits n) = n := by
  induction n using Nat.strong_induction_on with
  | _ n ih =>
    rw [natToDigits]
    split
    · rename_i h
      simp [digitsVal, digitChar_toNat n h]
    · rename_i h
      rw [digitsVal_append_last,
        ih (n / 10) (Nat.div_lt_self (by omega) (by omega)),
        digitChar_toNat (n % 10) (Nat.mod_lt _ (by omega))]
      omega

lemma allDigits_natToDigits (n : Nat) : allDigits (natToDigits n) = true := by
  induction n using Nat.strong_induction_on with
  | _ n ih =>
    rw [natToDigits]
    split
    · rename_i h
      simp [allDigits, isDigitChar_digitChar n h]
    · rename_i h
      have h1 := ih (n / 10) (Nat.div_lt_self (by omega) (by omega))
      have h2 := isDigitChar_digitChar (n % 10) (Nat.mod_lt _ (by omega))
      simp [allDigits] at h1 ⊢
      exact ⟨h1, h2⟩

lemma length_natToDigits_le (w n : Nat) (hn : n < 10 ^ w) (hw : 1 ≤ w) :
    (natToDigits n).length ≤ w := by
  induction w generalizing n with
  | zero => omega
  | succ w ih =>
    rw [natToDigits]
    split
    · simp
    · rename_i h
      rcases Nat.eq_zero_or_pos w with hw0 | hw1
      · subst hw0
        simp at hn
        omega
      · have hdiv : n / 10 < 10 ^ w := by
          have h10 : (10 : Nat) ^ (w + 1) = 10 * 10 ^ w := by ring
          rw [h10] at hn
          omega
        have := ih (n / 10) hdiv hw1
        simp
        omega

lemma allDigits_zeros_append (k : Nat) (ds : List Char)
    (h : allDigits ds = true) :
    allDigits (List.replicate k '0' ++ ds) = true := by
  simp only [allDigits, List.all_eq_true] at h ⊢
  intro c hc
  rcases List.mem_append.mp hc with h1 | h2
  · rw [List.eq_of_mem_replicate h1]
    decide
  · exact h c h2

lemma digitsVal_zeros_append (k : Nat) (ds : List Char) :
    digitsVal (List.replicate k '0' ++ ds) = digitsVal ds := by
  induction k with
  | zero => rfl
  | succ k ih =>
    simpa [digitsVal, List.replicate_succ] using ih

lemma goSprintf0_length (w : Nat) (v : Int) (hw : 1 ≤ w) (h0 : 0 ≤ v)
    (hv : v.toNat < 10 ^ w) : (goSprintf0 w v).length = w := by
  rw [goSprintf0, if_neg (by omega), zeroPadTo]
  have := length_natToDigits_le w v.toNat hv hw
  simp
  omega

lemma goAtoi_of_allDigits (cs : List Char) (h1 : cs ≠ [])
    (h2 : allDigits cs = true) : goAtoi cs = some (Int.ofNat (digitsVal cs)) := by
  match cs with
  | c :: ds =>
    have hc : isDigitChar c = true := by
      simp [allDigits] at h2
      exact h2.1
    have hplus : ¬ c = '+' := by
      intro e
      subst e
      exact absurd hc (by decide)
    have hminus : ¬ c = '-' := by
      intro e
      subst e
      exact absurd hc (by decide)
    rw [goAtoi, if_neg hplus, if_neg hminus, digitsToNat, if_pos ⟨by simp, h2⟩]
    rfl

lemma goAtoi_goSprintf0 (w : Nat) (v : Int) (hw : 1 ≤ w) (h0 : 0 ≤ v)
    (hv : v.toNat < 10 ^ w) : goAtoi (goSprintf0 w v) = some v := by
  rw [goSprintf0, if_neg (by omega), zeroPadTo]
  rw [goAtoi_of_allDigits _ (by simp [natToDigits_ne_nil])
    (allDigits_zeros_append _ _ (allDigits_natToDigits v.toNat))]
  rw [digitsVal_zeros_append, digitsVal_natToDigits]
  simp [Int.toNat_of_nonneg h0]

/-! ## Stepping lemmas for the parser on chunked input -/

lemma take_chunk (chunk rest : List Char) (w : Nat) (h : chunk.length = w) :
    (chunk ++ rest).take w = chunk := by
  subst h
  exact List.take_left chunk rest

lemma drop_chunk (chunk rest : List Char) (w : Nat) (h : chunk.length = w) :
    (chunk ++ rest).drop w = rest := by
  subst h
  exact List.drop_left chunk rest

lemma parseFixedInt_chunk (chunk rest : List Char) (j w : Nat) (v : Int)
    (hl : chunk.length = w) (ha : goAtoi chunk = some v) :
    parseFixedInt (chunk ++ rest) j w = (v, w, none) := by
  rw [parseFixedInt, if_neg (by simp [List.length_append]; omega),
    take_chunk chunk rest w hl, ha]

lemma parseLoop_stepY (loc : Locale) (rest : List Char) (r : parseResult)
    (chunk rem : List Char) (j : Nat) (v : Int)
    (hl : chunk.length = 4) (ha : goAtoi chunk = some v) :
    parseLoop loc ('%' :: 'Y' :: rest) r (chunk ++ rem) j =
      parseLoop loc rest { r with year := v } rem (j + 4) := by
  rw [parseLoop.eq_def]
  show (runSpec loc 'Y' r (chunk ++ rem) j).bind
    (fun st => parseLoop loc rest st.1 st.2.1 st.2.2) = _
  rw [show runSpec loc 'Y' r (chunk ++ rem) j =
    Outcome.ok ({ r with year := (parseFixedInt (chunk ++ rem) j 4).1 },
      (chunk ++ rem).drop (parseFixedInt (chunk ++ rem) j 4).2.1,
      j + (parseFixedInt (chunk ++ rem) j 4).2.1) from rfl]
  rw [parseFixedInt_chunk chunk rem j 4 v hl ha]
  simp [Outcome.bind, drop_chunk chunk rem 4 hl]

lemma parseLoop_stepy (loc : Locale) (rest : List Char) (r : parseResult)
    (chunk rem : List Char) (j : Nat) (v : Int)
    (hl : chunk.length = 2) (ha : goAtoi chunk = some v) :
    parseLoop loc ('%' :: 'y' :: rest) r (chunk ++ rem) j =
      parseLoop loc rest { r with year := pivotYear v } rem (j + 2) := by
  rw [parseLoop.eq_def]
  show (runSpec loc 'y' r (chunk ++ rem) j).bind
    (fun st => parseLoop loc rest st.1 st.2.1 st.2.2) = _
  rw [show runSpec loc 'y' r (chunk ++ rem) j =
    Outcome.ok ({ r with year := pivotYear (parseFixedInt (chunk ++ rem) j 2).1 },
      (chunk ++ rem).drop (parseFixedInt (chunk ++ rem) j 2).2.1,
      j + (parseFixedInt (chunk ++ rem) j 2).2.1) from rfl]
  rw [parseFixedInt_chunk chunk rem j 2 v hl ha]
  simp [Outcome.bind, drop_chunk chunk rem 2 hl]

lemma parseLoop_stepm (loc : Locale) (rest : List Char) (r : parseResult)
    (chunk rem : List Char) (j : Nat) (v : Int)
    (hl : chunk.length = 2) (ha : goAtoi chunk = some v) :
    parseLoop loc ('%' :: 'm' :: rest) r (chunk ++ rem) j =
      parseLoop loc rest { r with month := v } rem (j + 2) := by
  rw [parseLoop.eq_def]
  show (runSpec loc 'm' r (chunk ++ rem) j).bind
    (fun st => parseLoop loc rest st.1 st.2.1 st.2.2) = _
  rw [show runSpec loc 'm' r (chunk ++ rem) j =
    Outcome.ok ({ r with month := (parseFixedInt (chunk ++ rem) j 2).1 },
      (chunk ++ rem).drop (parseFixedInt (chunk ++ rem) j 2).2.1,
      j + (parseFixedInt (chunk ++ rem) j 2).2.1) from rfl]
  rw [parseFixedInt_chunk chunk rem j 2 v hl ha]
  simp [Outcome.bind, drop_chunk chunk rem 2 hl]

lemma parseLoop_stepd (loc : Locale) (rest : List Char) (r : parseResult)
    (chunk rem : List Char) (j : Nat) (v : Int)
    (hl : chunk.length = 2) (ha : goAtoi chunk = some v) :
    parseLoop loc ('%' :: 'd' :: rest) r (chunk ++ rem) j =
      parseLoop loc rest { r with day := v } rem (j + 2) := by
  rw [parseLoop.eq_def]
  show (runSpec loc 'd' r (chunk ++ rem) j).bind
    (fun st => parseLoop loc rest st.1 st.2.1 st.2.2) = _
  rw [show runSpec loc 'd' r (chunk ++ rem) j =
    Outcome.ok ({ r with day := (parseFixedInt (chunk ++ rem) j 2).1 },
      (chunk ++ rem).drop (parseFixedInt (chunk ++ rem) j 2).2.1,
      j + (parseFixedInt (chunk ++ rem) j 2).2.1) from rfl]
  rw [parseFixedInt_chunk chunk rem j 2 v hl ha]
  simp [Outcome.bind, drop_chunk chunk rem 2 hl]

lemma parseLoop_stepH (loc : Locale) (rest : List Char) (r : parseResult)
    (chunk rem : List Char) (j : Nat) (v : Int)
    (hl : chunk.length = 2) (ha : goAtoi chunk = some v) :
    parseLoop loc ('%' :: 'H' :: rest) r (chunk ++ rem) j =
      parseLoop loc rest { r with hour := v } rem (j + 2) := by
  rw [parseLoop.eq_def]
  show (runSpec loc 'H' r (chunk ++ rem) j).bind
    (fun st => parseLoop loc rest st.1 st.2.1 st.2.2) = _
  rw [show runSpec loc 'H' r (chunk ++ rem) j =
    Outcome.ok ({ r with hour := (parseFixedInt (chunk ++ rem) j 2).1 },
      (chunk ++ rem).drop (parseFixedInt (chunk ++ rem) j 2).2.1,
      j + (parseFixedInt (chunk ++ rem) j 2).2.1) from rfl]
  rw [parseFixedInt_chunk chunk rem j 2 v hl ha]
  simp [Outcome.bind, drop_chunk chunk rem 2 hl]

lemma parseLoop_stepM (loc : Locale) (rest : List Char) (r : parseResult)
    (chunk rem : List Char) (j : Nat) (v : Int)
    (hl : chunk.length = 2) (ha : goAtoi chunk = some v) :
    parseLoop loc ('%' :: 'M' :: rest) r (chunk ++ rem) j =
      parseLoop loc rest { r with minute := v } rem (j + 2) := by
  rw [parseLoop.eq_def]
  show (runSpec loc 'M' r (chunk ++ rem) j).bind
    (fun st => parseLoop loc rest st.1 st.2.1 st.2.2) = _
  rw [show runSpec loc 'M' r (chunk ++ rem) j =
    Outcome.ok ({ r with minute := (parseFixedInt (chunk ++ rem) j 2).1 },
      (chunk ++ rem).drop (parseFixedInt (chunk ++ rem) j 2).2.1,
      j + (parseFixedInt (chunk ++ rem) j 2).2.1) from rfl]
  rw [parseFixedInt_chunk chunk rem j 2 v hl ha]
  simp [Outcome.bind, drop_chunk chunk rem 2 hl]

lemma parseLoop_stepS (loc : Locale) (rest : List Char) (r : parseResult)
    (chunk rem : List Char) (j : Nat) (v : Int)
    (hl : chunk.length = 2) (ha : goAtoi chunk = some v) :
    parseLoop loc ('%' :: 'S' :: rest) r (chunk ++ rem) j =
      parseLoop loc rest { r with second := v } rem (j + 2) := by
  rw [parseLoop.eq_def]
  show (runSpec loc 'S' r (chunk ++ rem) j).bind
    (fun st => parseLoop loc rest st.1 st.2.1 st.2.2) = _
  rw [show runSpec loc 'S' r (chunk ++ rem) j =
    Outcome.ok ({ r with second := (parseFixedInt (chunk ++ rem) j 2).1 },
      (chunk ++ rem).drop (parseFixedInt (chunk ++ rem) j 2).2.1,
      j + (parseFixedInt (chunk ++ rem) j 2).2.1) from rfl]
  rw [parseFixedInt_chunk chunk rem j 2 v hl ha]
  simp [Outcome.bind, drop_chunk chunk rem 2 hl]

lemma parseLoop_litDash (loc : Locale) (rest : List Char) (r : parseResult)
    (rem : List Char) (j : Nat) :
    parseLoop loc ('-' :: rest) r ('-' :: rem) j =
      parseLoop loc rest r rem (j + 1) := by
  rw [parseLoop.eq_def]
  rfl

lemma parseLoop_litColon (loc : Locale) (rest : List Char) (r : parseResult)
    (rem : List Char) (j : Nat) :
    parseLoop loc (':' :: rest) r (':' :: rem) j =
      parseLoop loc rest r rem (j + 1) := by
  rw [parseLoop.eq_def]
  rfl

lemma parseLoop_litSpace (loc : Locale) (rest : List Char) (r : parseResult)
    (rem : List Char) (j : Nat) :
    parseLoop loc (' ' :: rest) r (' ' :: rem) j =
      parseLoop loc rest r rem (j + 1) := by
  rw [parseLoop.eq_def]
  rfl

/-! ## Directive-shape lemmas: one directive at the head of the format -/

lemma parseLoop_lit_cons (loc : Locale) (c : Char) (rest : List Char)
    (r : parseResult) (x : Char) (rem : List Char) (j : Nat) (hc : c ≠ '%') :
    parseLoop loc (c :: rest) r (x :: rem) j =
      if x = c then parseLoop loc rest r rem (j + 1)
      else .err (.literalMismatch j c x) := by
  rw [parseLoop.eq_def]
  split
  · rename_i heq
    exact List.noConfusion heq
  · rename_i rest3 heq
    injection heq with h1 h2
    exact absurd h1 hc
  · rename_i c2 rest3 heq
    injection heq with h1 h2
    subst h1
    subst h2
    rfl

lemma parseLoop_lit_nil (loc : Locale) (c : Char) (rest : List Char)
    (r : parseResult) (j : Nat) (hc : c ≠ '%') :
    parseLoop loc (c :: rest) r [] j = .crash := by
  rw [parseLoop.eq_def]
  split
  · rename_i heq
    exact List.noConfusion heq
  · rename_i rest3 heq
    injection heq with h1 h2
    exact absurd h1 hc
  · rename_i c2 rest3 heq
    injection heq with h1 h2
    subst h1
    subst h2
    rfl

lemma parseLoop_spec_cons (loc : Locale) (c : Char) (rest : List Char)
    (r : parseResult) (rem : List Char) (j : Nat) (hc : ¬(c = 'E' ∨ c = 'O')) :
    parseLoop loc ('%' :: c :: rest) r rem j =
      (runSpec loc c r rem j).bind fun st =>
        parseLoop loc rest st.1 st.2.1 st.2.2 := by
  rw [parseLoop.eq_def]
  split
  · rename_i heq
    exact List.noConfusion heq
  · rename_i rest3 heq
    injection heq with h1 h2
    subst h2
    split
    · rename_i heq2
      exact List.noConfusion heq2
    · rename_i c2 rest2 heq2
      injection heq2 with h3 h4
      subst h3
      subst h4
      rw [if_neg hc]
  · rename_i c2 rest3 hne heq
    injection heq with h1 h2
    exact absurd h1.symm hne

lemma parseLoop_EO_pct_cons (loc : Locale) (c2 spec : Char) (rest : List Char)
    (r : parseResult) (rem : List Char) (j : Nat) (hEO : c2 = 'E' ∨ c2 = 'O') :
    parseLoop loc ('%' :: c2 :: '%' :: spec :: rest) r rem j =
      (runSpec loc spec r rem j).bind fun st =>
        parseLoop loc rest st.1 st.2.1 st.2.2 := by
  rcases hEO with h | h <;> subst h <;> (rw [parseLoop.eq_def]; rfl)

lemma parseLoop_EO_cons (loc : Locale) (c2 spec : Char) (rest : List Char)
    (r : parseResult) (rem : List Char) (j : Nat) (hEO : c2 = 'E' ∨ c2 = 'O')
    (hs : spec ≠ '%') :
    parseLoop loc ('%' :: c2 :: spec :: rest) r rem j =
      (runSpec loc spec r rem j).bind fun st =>
        parseLoop loc rest st.1 st.2.1 st.2.2 := by
  rcases hEO with h | h <;> subst h <;>
    (rw [parseLoop.eq_def]
     split
     · rename_i heq
       exact List.noConfusion heq
     · rename_i rest9 heq
       injection heq with h1 h2
       subst h2
       split
       · rename_i heq2
         exact List.noConfusion heq2
       · rename_i c9 rest9 heq2
         injection heq2 with h3 h4
         subst h3
         subst h4
         rw [if_pos (by decide)]
         split
         · rename_i heq3
           exact List.noConfusion heq3
         · rename_i rest9 heq3
           injection heq3 with h5 h6
           exact absurd h5 hs
         · rename_i c9 rest9 hne heq3
           injection heq3 with h5 h6
           subst h5
           subst h6
           rfl
     · rename_i c9 rest9 hne heq
       injection heq with h1 h2
       exact absurd h1.symm hne)

lemma StrftimeL_lit_cons (c : Char) (rest : List Char) (t : Tm) (loc : Locale)
    (hc : c ≠ '%') :
    StrftimeL (c :: rest) t loc = c :: StrftimeL rest t loc := by
  rw [StrftimeL.eq_def]
  split
  · rename_i heq
    exact List.noConfusion heq
  · rename_i rest3 heq
    injection heq with h1 h2
    exact absurd h1 hc
  · rename_i c2 rest3 heq
    injection heq with h1 h2
    subst h1
    subst h2
    rfl

lemma StrftimeL_spec_cons (c : Char) (rest : List Char) (t : Tm) (loc : Locale)
    (hc : ¬(c = 'E' ∨ c = 'O')) :
    StrftimeL ('%' :: c :: rest) t loc =
      fmtSpec c t loc ++ StrftimeL rest t loc := by
  rw [StrftimeL.eq_def]
  split
  · rename_i heq
    exact List.noConfusion heq
  · rename_i rest3 heq
    injection heq with h1 h2
    subst h2
    split
    · rename_i heq2
      exact List.noConfusion heq2
    · rename_i c2 rest2 heq2
      injection heq2 with h3 h4
      subst h3
      subst h4
      rw [if_neg hc]
  · rename_i c2 rest3 hne heq
    injection heq with h1 h2
    exact absurd h1.symm hne

lemma StrftimeL_EO_pct_cons (c2 spec : Char) (rest : List Char) (t : Tm)
    (loc : Locale) (hEO : c2 = 'E' ∨ c2 = 'O') :
    StrftimeL ('%' :: c2 :: '%' :: spec :: rest) t loc =
      fmtSpec spec t loc ++ StrftimeL rest t loc := by
  rcases hEO with h | h <;> subst h <;> (rw [StrftimeL.eq_def]; rfl)

lemma StrftimeL_EO_cons (c2 spec : Char) (rest : List Char) (t : Tm)
    (loc : Locale) (hEO : c2 = 'E' ∨ c2 = 'O') (hs : spec ≠ '%') :
    StrftimeL ('%' :: c2 :: spec :: rest) t loc =
      fmtSpec spec t loc ++ StrftimeL rest t loc := by
  rcases hEO with h | h <;> subst h <;>
    (rw [StrftimeL.eq_def]
     split
     · rename_i heq
       exact List.noConfusion heq
     · rename_i rest9 heq
       injection heq with h1 h2
       subst h2
       split
       · rename_i heq2
         exact List.noConfusion heq2
       · rename_i c9 rest9 heq2
         injection heq2 with h3 h4
         subst h3
         subst h4
         rw [if_pos (by decide)]
         split
         · rename_i heq3
           exact List.noConfusion heq3
         · rename_i rest9 heq3
           injection heq3 with h5 h6
           exact absurd h5 hs
         · rename_i c9 rest9 hne heq3
           injection heq3 with h5 h6
           subst h5
           subst h6
           rfl
     · rename_i c9 rest9 hne heq
       injection heq with h1 h2
       exact absurd h1.symm hne)

lemma completeFormat_lit_cons (c : Char) (rest : List Char) (hc : c ≠ '%') :
    completeFormat (c :: rest) = completeFormat rest := by
  rw [completeFormat.eq_def]
  split
  · rename_i heq
    exact List.noConfusion heq
  · rename_i rest3 heq
    injection heq with h1 h2
    exact absurd h1 hc
  · rename_i c2 rest3 heq
    injection heq with h1 h2
    subst h1
    subst h2
    rfl

lemma completeFormat_spec_cons (c : Char) (rest : List Char)
    (hc : ¬(c = 'E' ∨ c = 'O')) :
    completeFormat ('%' :: c :: rest) = completeFormat rest := by
  rw [completeFormat.eq_def]
  split
  · rename_i heq
    exact List.noConfusion heq
  · rename_i rest3 heq
    injection heq with h1 h2
    subst h2
    split
    · rename_i heq2
      exact List.noConfusion heq2
    · rename_i c2 rest2 heq2
      injection heq2 with h3 h4
      subst h3
      subst h4
      rw [if_neg hc]
  · rename_i c2 rest3 hne heq
    injection heq with h1 h2
    exact absurd h1.symm hne

lemma completeFormat_EO_pct_cons (c2 spec : Char) (rest : List Char)
    (hEO : c2 = 'E' ∨ c2 = 'O') :
    completeFormat ('%' :: c2 :: '%' :: spec :: rest) = completeFormat rest := by
  rcases hEO with h | h <;> subst h <;> (rw [completeFormat.eq_def]; rfl)

lemma completeFormat_EO_cons (c2 spec : Char) (rest : List Char)
    (hEO : c2 = 'E' ∨ c2 = 'O') (hs : spec ≠ '%') :
    completeFormat ('%' :: c2 :: spec :: rest) = completeFormat rest := by
  rcases hEO with h | h <;> subst h <;>
    (rw [completeFormat.eq_def]
     split
     · rename_i heq
       exact List.noConfusion heq
     · rename_i rest9 heq
       injection heq with h1 h2
       subst h2
       split
       · rename_i heq2
         exact List.noConfusion heq2
       · rename_i c9 rest9 heq2
         injection heq2 with h3 h4
         subst h3
         subst h4
         rw [if_pos (by decide)]
         split
         · rename_i heq3
           exact List.noConfusion heq3
         · rename_i rest9 heq3
           injection heq3 with h5 h6
           exact absurd h5 hs
         · rename_i c9 rest9 hne heq3
           injection heq3 with h5 h6
           subst h5
           subst h6
           rfl
     · rename_i c9 rest9 hne heq
       injection heq with h1 h2
       exact absurd h1.symm hne)


/-! ## Appending a lone trailing percent -/
theorem StrftimeL_append_pct_aux (t : Tm) (loc : Locale) :
    ∀ (n : Nat) (p : List Char), p.length ≤ n → completeFormat p = true →
      StrftimeL (p ++ ['%']) t loc = StrftimeL p t loc ++ ['%'] := by
  intro n
  induction n with
  | zero =>
    intro p hl h
    rcases p with _ | ⟨c, rest⟩
    · rfl
    · simp at hl
  | succ n ih =>
    intro p hl h
    rcases p with _ | ⟨c, rest⟩
    · rfl
    · by_cases hc : c = '%'
      · subst hc
        rcases rest with _ | ⟨c2, rest2⟩
        · exact absurd h (by decide)
        · by_cases hEO : c2 = 'E' ∨ c2 = 'O'
          · rcases rest2 with _ | ⟨c3, rest3⟩
            · rcases hEO with h2 | h2 <;> subst h2 <;> exact absurd h (by decide)
            · by_cases h3 : c3 = '%'
              · subst h3
                rcases rest3 with _ | ⟨c4, rest4⟩
                · rcases hEO with h2 | h2 <;> subst h2 <;> exact absurd h (by decide)
                · rw [completeFormat_EO_pct_cons _ _ _ hEO] at h
                  rw [show ('%' :: c2 :: '%' :: c4 :: rest4) ++ ['%'] =
                    '%' :: c2 :: '%' :: c4 :: (rest4 ++ ['%']) from rfl]
                  rw [StrftimeL_EO_pct_cons _ _ _ _ _ hEO,
                    StrftimeL_EO_pct_cons _ _ _ _ _ hEO,
                    ih rest4 (by simp at hl ⊢; omega) h, List.append_assoc]
              · rw [completeFormat_EO_cons _ _ _ hEO h3] at h
                rw [show ('%' :: c2 :: c3 :: rest3) ++ ['%'] =
                  '%' :: c2 :: c3 :: (rest3 ++ ['%']) from rfl]
                rw [StrftimeL_EO_cons _ _ _ _ _ hEO h3,
                  StrftimeL_EO_cons _ _ _ _ _ hEO h3,
                  ih rest3 (by simp at hl ⊢; omega) h, List.append_assoc]
          · rw [completeFormat_spec_cons _ _ hEO] at h
            rw [show ('%' :: c2 :: rest2) ++ ['%'] =
              '%' :: c2 :: (rest2 ++ ['%']) from rfl]
            rw [StrftimeL_spec_cons _ _ _ _ hEO, StrftimeL_spec_cons _ _ _ _ hEO,
              ih rest2 (by simp at hl ⊢; omega) h, List.append_assoc]
      · rw [completeFormat_lit_cons _ _ hc] at h
        rw [show (c :: rest) ++ ['%'] = c :: (rest ++ ['%']) from rfl]
        rw [StrftimeL_lit_cons _ _ _ _ hc, StrftimeL_lit_cons _ _ _ _ hc,
          ih rest (by simp at hl ⊢; omega) h]
        rfl

theorem parseLoop_append_pct_aux (loc : Locale) :
    ∀ (n : Nat) (p : List Char), p.length ≤ n →
      ∀ (r : parseResult) (rem : List Char) (j : Nat)
        (st : parseResult × List Char × Nat),
      parseLoop loc p r rem j = .ok st →
      parseLoop loc (p ++ ['%']) r rem j = .err .incompleteAtEnd := by
  intro n
  induction n with
  | zero =>
    intro p hl r rem j st h
    rcases p with _ | ⟨c, rest⟩
    · rfl
    · simp at hl
  | succ n ih =>
    intro p hl r rem j st h
    rcases p with _ | ⟨c, rest⟩
    · rfl
    · by_cases hc : c = '%'
      · subst hc
        rcases rest with _ | ⟨c2, rest2⟩
        · rw [show parseLoop loc ['%'] r rem j =
            Outcome.err .incompleteAtEnd from rfl] at h
          exact Outcome.noConfusion h
        · by_cases hEO : c2 = 'E' ∨ c2 = 'O'
          · rcases rest2 with _ | ⟨c3, rest3⟩
            · rcases hEO with h2 | h2 <;> subst h2
              · rw [show parseLoop loc ['%', 'E'] r rem j =
                  Outcome.err .incompleteAfterPosix from rfl] at h
                exact Outcome.noConfusion h
              · rw [show parseLoop loc ['%', 'O'] r rem j =
                  Outcome.err .incompleteAfterPosix from rfl] at h
                exact Outcome.noConfusion h
            · by_cases h3 : c3 = '%'
              · subst h3
                rcases rest3 with _ | ⟨c4, rest4⟩
                · rcases hEO with h2 | h2 <;> subst h2
                  · rw [show parseLoop loc ['%', 'E', '%'] r rem j =
                      Outcome.err .incompleteAfterPosix from rfl] at h
                    exact Outcome.noConfusion h
                  · rw [show parseLoop loc ['%', 'O', '%'] r rem j =
                      Outcome.err .incompleteAfterPosix from rfl] at h
                    exact Outcome.noConfusion h
                · rw [parseLoop_EO_pct_cons _ _ _ _ _ _ _ hEO] at h
                  rw [show ('%' :: c2 :: '%' :: c4 :: rest4) ++ ['%'] =
                    '%' :: c2 :: '%' :: c4 :: (rest4 ++ ['%']) from rfl,
                    parseLoop_EO_pct_cons _ _ _ _ _ _ _ hEO]
                  cases hrs : runSpec loc c4 r rem j with
                  | ok st2 =>
                    rw [hrs] at h
                    simp only [Outcome.bind] at h ⊢
                    exact ih rest4 (by simp at hl ⊢; omega) _ _ _ _ h
                  | err e =>
                    rw [hrs] at h
                    simp only [Outcome.bind] at h
                    exact Outcome.noConfusion h
                  | crash =>
                    rw [hrs] at h
                    simp only [Outcome.bind] at h
                    exact Outcome.noConfusion h
              · rw [parseLoop_EO_cons _ _ _ _ _ _ _ hEO h3] at h
                rw [show ('%' :: c2 :: c3 :: rest3) ++ ['%'] =
                  '%' :: c2 :: c3 :: (rest3 ++ ['%']) from rfl,
                  parseLoop_EO_cons _ _ _ _ _ _ _ hEO h3]
                cases hrs : runSpec loc c3 r rem j with
                | ok st2 =>
                  rw [hrs] at h
                  simp only [Outcome.bind] at h ⊢
                  exact ih rest3 (by simp at hl ⊢; omega) _ _ _ _ h
                | err e =>
                  rw [hrs] at h
                  simp only [Outcome.bind] at h
                  exact Outcome.noConfusion h
                | crash =>
                  rw [hrs] at h
                  simp only [Outcome.bind] at h
                  exact Outcome.noConfusion h
          · rw [parseLoop_spec_cons _ _ _ _ _ _ hEO] at h
            rw [show ('%' :: c2 :: rest2) ++ ['%'] =
              '%' :: c2 :: (rest2 ++ ['%']) from rfl,
              parseLoop_spec_cons _ _ _ _ _ _ hEO]
            cases hrs : runSpec loc c2 r rem j with
            | ok st2 =>
              rw [hrs] at h
              simp only [Outcome.bind] at h ⊢
              exact ih rest2 (by simp at hl ⊢; omega) _ _ _ _ h
            | err e =>
              rw [hrs] at h
              simp only [Outcome.bind] at h
              exact Outcome.noConfusion h
            | crash =>
              rw [hrs] at h
              simp only [Outcome.bind] at h
              exact Outcome.noConfusion h
      · rcases rem with _ | ⟨x, rem2⟩
        · rw [parseLoop_lit_nil _ _ _ _ _ hc] at h
          exact Outcome.noConfusion h
        · rw [parseLoop_lit_cons _ _ _ _ _ _ _ hc] at h
          by_cases hx : x = c
          · rw [if_pos hx] at h
            rw [show (c :: rest) ++ ['%'] = c :: (rest ++ ['%']) from rfl,
              parseLoop_lit_cons _ _ _ _ _ _ _ hc, if_pos hx]
            exact ih rest (by simp at hl ⊢; omega) _ _ _ _ h
          · rw [if_neg hx] at h
            exact Outcome.noConfusion h


/-! ## Helper: fixed-width read of a whole remaining input -/

lemma parseFixedInt_exact (chunk : List Char) (j w : Nat) (v : Int)
    (hl : chunk.length = w) (ha : goAtoi chunk = some v) :
    parseFixedInt chunk j w = (v, w, none) := by
  rw [parseFixedInt, if_neg (by omega), List.take_of_length_le (by omega), ha]

/-! ## Claims -/

/-- C1.  Round-trip: for every time value whose `StrftimeL` rendering of each
field of `%Y-%m-%d %H:%M:%S` has the fixed width the parser expects (year in
0..9999 rendered as 4 digits, the other five fields in 0..99 rendered as 2
digits), parsing the formatted string with the same format and locale
returns exactly the year, month, day, hour, minute and second of the
original value. -/
theorem c1_roundtrip_YmdHMS (t : Tm) (loc : Locale) (base : DateArgs)
    (hy0 : 0 ≤ t.year) (hy1 : t.year < 10000)
    (hmo0 : 0 ≤ t.month) (hmo1 : t.month < 100)
    (hd0 : 0 ≤ t.day) (hd1 : t.day < 100)
    (hh0 : 0 ≤ t.hour) (hh1 : t.hour < 100)
    (hmi0 : 0 ≤ t.minute) (hmi1 : t.minute < 100)
    (hs0 : 0 ≤ t.second) (hs1 : t.second < 100) :
    ParseL fmtC1 (StrftimeL fmtC1 t loc) loc base =
      .ok ⟨t.year, t.month, t.day, t.hour, t.minute, t.second⟩ := by
  have eY : goAtoi (goSprintf0 4 t.year) = some t.year :=
    goAtoi_goSprintf0 4 t.year (by omega) hy0 (by omega)
  have lY : (goSprintf0 4 t.year).length = 4 :=
    goSprintf0_length 4 t.year (by omega) hy0 (by omega)
  have eMo : goAtoi (goSprintf0 2 t.month) = some t.month :=
    goAtoi_goSprintf0 2 t.month (by omega) hmo0 (by omega)
  have lMo : (goSprintf0 2 t.month).length = 2 :=
    goSprintf0_length 2 t.month (by omega) hmo0 (by omega)
  have eD : goAtoi (goSprintf0 2 t.day) = some t.day :=
    goAtoi_goSprintf0 2 t.day (by omega) hd0 (by omega)
  have lD : (goSprintf0 2 t.day).length = 2 :=
    goSprintf0_length 2 t.day (by omega) hd0 (by omega)
  have eH : goAtoi (goSprintf0 2 t.hour) = some t.hour :=
    goAtoi_goSprintf0 2 t.hour (by omega) hh0 (by omega)
  have lH : (goSprintf0 2 t.hour).length = 2 :=
    goSprintf0_length 2 t.hour (by omega) hh0 (by omega)
  have eMi : goAtoi (goSprintf0 2 t.minute) = some t.minute :=
    goAtoi_goSprintf0 2 t.minute (by omega) hmi0 (by omega)
  have lMi : (goSprintf0 2 t.minute).length = 2 :=
    goSprintf0_length 2 t.minute (by omega) hmi0 (by omega)
  have eS : goAtoi (goSprintf0 2 t.second) = some t.second :=
    goAtoi_goSprintf0 2 t.second (by omega) hs0 (by omega)
  have lS : (goSprintf0 2 t.second).length = 2 :=
    goSprintf0_length 2 t.second (by omega) hs0 (by omega)
  have hS : StrftimeL fmtC1 t loc =
      goSprintf0 4 t.year ++ '-' :: (goSprintf0 2 t.month ++ '-' ::
        (goSprintf0 2 t.day ++ ' ' :: (goSprintf0 2 t.hour ++ ':' ::
          (goSprintf0 2 t.minute ++ ':' ::
            (goSprintf0 2 t.second ++ ([] : List Char)))))) := rfl
  rw [ParseL, hS]
  rw [show fmtC1 = '%' :: 'Y' :: ['-', '%', 'm', '-', '%', 'd', ' ', '%', 'H',
    ':', '%', 'M', ':', '%', 'S'] from rfl]
  rw [parseLoop_stepY loc _ _ _ _ 0 t.year lY eY]
  rw [parseLoop_litDash]
  rw [parseLoop_stepm loc _ _ _ _ _ t.month lMo eMo]
  rw [parseLoop_litDash]
  rw [parseLoop_stepd loc _ _ _ _ _ t.day lD eD]
  rw [parseLoop_litSpace]
  rw [parseLoop_stepH loc _ _ _ _ _ t.hour lH eH]
  rw [parseLoop_litColon]
  rw [parseLoop_stepM loc _ _ _ _ _ t.minute lMi eMi]
  rw [parseLoop_litColon]
  rw [parseLoop_stepS loc _ _ _ _ _ t.second lS eS]
  rfl

/-- Witness for C1 at the fixed time 2025-02-25 15:30:45. -/
theorem c1_roundtrip_YmdHMS_witness :
    ParseL fmtC1 (StrftimeL fmtC1 t0 DefaultLocale) DefaultLocale b0 =
      .ok ⟨2025, 2, 25, 15, 30, 45⟩ :=
  c1_roundtrip_YmdHMS t0 DefaultLocale b0 (by decide) (by decide) (by decide)
    (by decide) (by decide) (by decide) (by decide) (by decide) (by decide)
    (by decide) (by decide) (by decide)

/-- C2.  Contrary to the claim, a fixed-width field that cannot be read is
not a fatal parse error: `parseFixedInt` does report the shortfall, but
`ParseL` discards the error (the `_` in `result.second, j, _ = ...`), keeps
the cursor, stores the returned 0 in the field, and here returns a
successful time value with second = 0 for format `%S` on empty input. -/
theorem c2_fixed_width_error_discarded :
    parseFixedInt [] 0 2 = (0, 0, some (.fixedShortfall 2 0)) ∧
    ParseL ['%', 'S'] [] DefaultLocale b0 = .ok ⟨2025, 2, 25, 15, 30, 0⟩ :=
  ⟨rfl, rfl⟩

/-- C3.  A literal format character with a mismatching input byte is a
literal-mismatch error carrying the cursor position, but on exhausted input
`ParseL` panics instead of returning an error: the Go error path evaluates
`s[j]` inside `fmt.Errorf` even when `j >= len(s)` (index out of range). -/
theorem c3_literal_exhausted_crash :
    ParseL ['X'] [] DefaultLocale b0 = .crash ∧
    ParseL ['X'] ['Y'] DefaultLocale b0 =
      .err (.literalMismatch 0 'X' 'Y') :=
  ⟨rfl, rfl⟩

/-- Counterexample to C4 as stated: formatting `a%` does not drop the
trailing `%`; the rune-based `StrftimeL` emits it as a literal `%`, so the
output differs from the output for `a`. -/
theorem c4_trailing_percent_counterexample :
    StrftimeL ['a', '%'] t0 DefaultLocale ≠ StrftimeL ['a'] t0 DefaultLocale := by
  decide

/-- C4 (amended).  For a format ending in a lone `%`: parsing returns the
incomplete-specifier error whenever the preceding directives consumed the
input successfully, while formatting succeeds and emits the trailing `%` as
a literal `%` (the output is the output for the format without the trailing
`%`, followed by `%`), for every directive-complete prefix. -/
theorem c4_trailing_percent_amended (p s : List Char) (t : Tm) (loc : Locale)
    (base : DateArgs) (st : parseResult × List Char × Nat) :
    (completeFormat p = true →
      StrftimeL (p ++ ['%']) t loc = StrftimeL p t loc ++ ['%']) ∧
    (parseLoop loc p (initResult base) s 0 = .ok st →
      ParseL (p ++ ['%']) s loc base = .err .incompleteAtEnd) := by
  constructor
  · intro h
    exact StrftimeL_append_pct_aux t loc p.length p le_rfl h
  · intro h
    rw [ParseL, parseLoop_append_pct_aux loc p.length p le_rfl _ _ _ _ h]
    rfl

/-- Witness for C4 (amended) with prefix `a` and input `a`. -/
theorem c4_trailing_percent_amended_witness :
    StrftimeL (['a'] ++ ['%']) t0 DefaultLocale =
      StrftimeL ['a'] t0 DefaultLocale ++ ['%'] ∧
    ParseL (['a'] ++ ['%']) ['a'] DefaultLocale b0 = .err .incompleteAtEnd :=
  ⟨(c4_trailing_percent_amended ['a'] ['a'] t0 DefaultLocale b0
      (initResult b0, [], 1)).1 (by decide),
   (c4_trailing_percent_amended ['a'] ['a'] t0 DefaultLocale b0
      (initResult b0, [], 1)).2 rfl⟩

/-- C5.  POSIX extension equivalence in formatting: for every time value and
locale, `%EY` and `%E%Y` format exactly as `%Y`; the `E` prefix (and the
optional `%` after it) is consumed with no effect on the output. -/
theorem c5_posix_extension_equiv (t : Tm) (loc : Locale) :
    StrftimeL ['%', 'E', 'Y'] t loc = StrftimeL ['%', 'Y'] t loc ∧
    StrftimeL ['%', 'E', '%', 'Y'] t loc = StrftimeL ['%', 'Y'] t loc :=
  ⟨rfl, rfl⟩

/-- Counterexample to C6 as stated: with format, input and locale all fixed,
the result of `ParseL` still differs between two values of the moment read
by the `time.Now()` call inside the function — the unmentioned fields are
filled from ambient state read inside `ParseL`, not from a caller-supplied
reference, so identical-argument invocations at different moments differ. -/
theorem c6_base_counterexample :
    ParseL ['%', 'H', ':', '%', 'M'] ['1', '2', ':', '3', '0'] DefaultLocale b0 ≠
    ParseL ['%', 'H', ':', '%', 'M'] ['1', '2', ':', '3', '0'] DefaultLocale b1 := by
  decide

/-- C6 (amended).  Parsing is deterministic as a function of format, input,
locale and the current moment read by `time.Now()` inside `ParseL` (the
explicit `base` of the embedding); fields never mentioned by the format are
filled from that internally-read moment: parsing `12:30` with `%H:%M` yields
hour 12 and minute 30 and inherits year, month, day and second from the
moment of the call. -/
theorem c6_deterministic_given_now (base : DateArgs) :
    ParseL ['%', 'H', ':', '%', 'M'] ['1', '2', ':', '3', '0'] DefaultLocale
        base =
      .ok ⟨base.year, base.month, base.day, 12, 30, base.second⟩ := rfl

/-- C7.  12-hour boundary: formatting hour 0 with `%I %p` under the default
English locale yields `12 AM` and hour 12 yields `12 PM`; parsing
`12:30:45 AM` with `%I:%M:%S %p` yields hour 0 and parsing `12:30:45 PM`
yields hour 12. -/
theorem c7_twelve_hour_boundary (t : Tm) (base : DateArgs) :
    StrftimeL ['%', 'I', ' ', '%', 'p'] { t with hour := 0 } DefaultLocale =
      ['1', '2', ' ', 'A', 'M'] ∧
    StrftimeL ['%', 'I', ' ', '%', 'p'] { t with hour := 12 } DefaultLocale =
      ['1', '2', ' ', 'P', 'M'] ∧
    ParseL fmtIMSp ("12:30:45 AM".toList) DefaultLocale base =
      .ok ⟨base.year, base.month, base.day, 0, 30, 45⟩ ∧
    ParseL fmtIMSp ("12:30:45 PM".toList) DefaultLocale base =
      .ok ⟨base.year, base.month, base.day, 12, 30, 45⟩ := by
  have h12 : goSprintf0 2 12 = ['1', '2'] := by
    simp [goSprintf0, zeroPadTo, natToDigits]
    decide
  refine ⟨?_, ?_, rfl, rfl⟩
  · show goSprintf0 2 12 ++ ' ' :: (DefaultLocale.AM ++ []) =
      ['1', '2', ' ', 'A', 'M']
    rw [h12]
    rfl
  · show goSprintf0 2 12 ++ ' ' :: (DefaultLocale.PM ++ []) =
      ['1', '2', ' ', 'P', 'M']
    rw [h12]
    rfl

/-- C8.  Ambiguous-hour errors: whenever the directive walk succeeded and
`%I` was consumed (the accumulator has `hour12`), `ParseL` returns an error
if no `%p` appeared, returns an error if the `%I` value lies outside 1–12,
and a successful result implies both that `%p` appeared and that the value
lies in 1–12. -/
theorem c8_ambiguous_hour (format s : List Char) (loc : Locale)
    (base : DateArgs) (r : parseResult) (rem : List Char) (j : Nat)
    (hrun : parseLoop loc format (initResult base) s 0 = .ok (r, rem, j))
    (h12 : r.hour12 = true) :
    (r.ampmSet = false → ∃ e, ParseL format s loc base = .err e) ∧
    ((r.hour < 1 ∨ 12 < r.hour) → ∃ e, ParseL format s loc base = .err e) ∧
    (∀ d, ParseL format s loc base = .ok d →
      r.ampmSet = true ∧ 1 ≤ r.hour ∧ r.hour ≤ 12) := by
  have hP : ParseL format s loc base = finalize r rem j := by
    rw [ParseL, hrun]
    rfl
  rw [hP, finalize]
  refine ⟨?_, ?_, ?_⟩
  · intro hAm
    by_cases h1 : (skipTrailingWs rem j).1 ≠ []
    · rw [if_pos h1]
      exact ⟨_, rfl⟩
    · rw [if_neg h1,
        if_pos (show (r.hour12 && !r.ampmSet) = true by rw [h12, hAm]; rfl)]
      exact ⟨_, rfl⟩
  · intro hRange
    by_cases h1 : (skipTrailingWs rem j).1 ≠ []
    · rw [if_pos h1]
      exact ⟨_, rfl⟩
    · rw [if_neg h1]
      by_cases h2 : (r.hour12 && !r.ampmSet) = true
      · rw [if_pos h2]
        exact ⟨_, rfl⟩
      · rw [if_neg h2, if_pos h12, if_pos hRange]
        exact ⟨_, rfl⟩
  · intro d hOk
    by_cases h1 : (skipTrailingWs rem j).1 ≠ []
    · rw [if_pos h1] at hOk
      exact Outcome.noConfusion hOk
    · rw [if_neg h1] at hOk
      by_cases h2 : (r.hour12 && !r.ampmSet) = true
      · rw [if_pos h2] at hOk
        exact Outcome.noConfusion hOk
      · by_cases h3 : (r.hour < 1 ∨ 12 < r.hour)
        · rw [if_neg h2, if_pos h12, if_pos h3] at hOk
          exact Outcome.noConfusion hOk
        · have hAm : r.ampmSet = true := by
            rw [h12] at h2
            simpa using h2
          exact ⟨hAm, by omega, by omega⟩

/-- Witness for C8 on format `%I%p` and input `03AM`. -/
theorem c8_ambiguous_hour_witness :
    (r0c.ampmSet = false →
      ∃ e, ParseL ['%', 'I', '%', 'p'] ['0', '3', 'A', 'M'] DefaultLocale b0 =
        .err e) ∧
    ((r0c.hour < 1 ∨ 12 < r0c.hour) →
      ∃ e, ParseL ['%', 'I', '%', 'p'] ['0', '3', 'A', 'M'] DefaultLocale b0 =
        .err e) ∧
    (∀ d, ParseL ['%', 'I', '%', 'p'] ['0', '3', 'A', 'M'] DefaultLocale b0 =
        .ok d → r0c.ampmSet = true ∧ 1 ≤ r0c.hour ∧ r0c.hour ≤ 12) :=
  c8_ambiguous_hour ['%', 'I', '%', 'p'] ['0', '3', 'A', 'M'] DefaultLocale b0
    r0c [] 4 rfl rfl

/-- C9.  Two-digit year pivot: a two-digit value v consumed by `%y`, or by
the year portion of `%D`, produces year 2000 + v when v < 69 and 1900 + v
otherwise; the other fields come from the directive or the current moment. -/
theorem c9_two_digit_pivot (v : Nat) (base : DateArgs) (hv : v ≤ 99) :
    ParseL ['%', 'y'] (goSprintf0 2 (v : Int)) DefaultLocale base =
      .ok ⟨if v < 69 then 2000 + (v : Int) else 1900 + (v : Int),
        base.month, base.day, base.hour, base.minute, base.second⟩ ∧
    ParseL ['%', 'D'] (['0', '1', '/', '0', '2', '/'] ++ goSprintf0 2 (v : Int))
        DefaultLocale base =
      .ok ⟨if v < 69 then 2000 + (v : Int) else 1900 + (v : Int), 1, 2,
        base.hour, base.minute, base.second⟩ := by
  have h0 : (0 : Int) ≤ (v : Int) := Int.ofNat_nonneg v
  have htn : ((v : Int)).toNat < 10 ^ 2 := by
    simp [Int.toNat_ofNat]
    omega
  have hl : (goSprintf0 2 (v : Int)).length = 2 :=
    goSprintf0_length 2 _ (by omega) h0 htn
  have ha : goAtoi (goSprintf0 2 (v : Int)) = some (v : Int) :=
    goAtoi_goSprintf0 2 _ (by omega) h0 htn
  have hpfi : parseFixedInt (goSprintf0 2 (v : Int)) 0 2 = ((v : Int), 2, none) :=
    parseFixedInt_exact _ 0 2 _ hl ha
  have hpfi6 : parseFixedInt (goSprintf0 2 (v : Int)) 6 2 = ((v : Int), 2, none) :=
    parseFixedInt_exact _ 6 2 _ hl ha
  have hdrop : (goSprintf0 2 (v : Int)).drop 2 = [] := by
    exact List.drop_eq_nil_of_le (by omega)
  have hpiv : pivotYear (v : Int) =
      if v < 69 then 2000 + (v : Int) else 1900 + (v : Int) := by
    rw [pivotYear]
    split_ifs <;> omega
  constructor
  · have hstep : ParseL ['%', 'y'] (goSprintf0 2 (v : Int)) DefaultLocale base =
        (parseLoop DefaultLocale []
          { initResult base with
              year := pivotYear (parseFixedInt (goSprintf0 2 (v : Int)) 0 2).1 }
          ((goSprintf0 2 (v : Int)).drop
            (parseFixedInt (goSprintf0 2 (v : Int)) 0 2).2.1)
          (0 + (parseFixedInt (goSprintf0 2 (v : Int)) 0 2).2.1)).bind
          (fun st => finalize st.1 st.2.1 st.2.2) := rfl
    rw [hstep, hpfi, hdrop, hpiv]
    rfl
  · have hstep : ParseL ['%', 'D']
        (['0', '1', '/', '0', '2', '/'] ++ goSprintf0 2 (v : Int))
        DefaultLocale base =
        (parseLoop DefaultLocale []
          { initResult base with
              month := 1, day := 2,
              year := pivotYear (parseFixedInt (goSprintf0 2 (v : Int)) 6 2).1 }
          ((goSprintf0 2 (v : Int)).drop
            (parseFixedInt (goSprintf0 2 (v : Int)) 6 2).2.1)
          (6 + (parseFixedInt (goSprintf0 2 (v : Int)) 6 2).2.1)).bind
          (fun st => finalize st.1 st.2.1 st.2.2) := rfl
    rw [hstep, hpfi6, hdrop, hpiv]
    rfl

/-- Witness for C9 at v = 68 (and via the pivot also covering the stated
68 to 2068 boundary example). -/
theorem c9_two_digit_pivot_witness :
    ParseL ['%', 'y'] (goSprintf0 2 (68 : Int)) DefaultLocale b0 =
      .ok ⟨2068, 2, 25, 15, 30, 45⟩ ∧
    ParseL ['%', 'D'] (['0', '1', '/', '0', '2', '/'] ++ goSprintf0 2 (68 : Int))
        DefaultLocale b0 =
      .ok ⟨2068, 1, 2, 15, 30, 45⟩ :=
  c9_two_digit_pivot 68 b0 (by decide)

/-- C10.  Unknown-specifier asymmetry: formatting `%Q` passes the specifier
through as the literal text `%Q` for every time value and locale, while
parsing with format `%Q` fails with the unsupported-conversion-specifier
error for every input, locale and current moment. -/
theorem c10_unknown_specifier (t : Tm) (loc : Locale) (s : List Char)
    (base : DateArgs) :
    StrftimeL ['%', 'Q'] t loc = ['%', 'Q'] ∧
    ParseL ['%', 'Q'] s loc base = .err (.unsupportedSpecifier 'Q') :=
  ⟨rfl, rfl⟩

end Strftime
